import Mathlib

/-!
Shallow embedding of the `http_server` repository (a minimal HTTP/1.1 static
file server) and proofs about its request parser (`src/req.rs`), response
builder/writer (`src/resp.rs`), static file handler (`src/handler.rs`) and
connection handling (`src/main.rs`).

Byte strings are modelled as lists of characters; the filesystem and the
write side of a connection are modelled explicitly; fallible operations
return `Except`, and the reachable `unwrap` panics of the source are modelled
as dedicated outcome constructors.
-/

set_option maxRecDepth 10000

namespace HttpSrv

/-- Byte strings of the Rust source, modelled as lists of characters. -/
abbrev Str := List Char

/-- The CRLF line terminator. -/
def CRLF : Str := ['\r', '\n']

/-- Models `AsyncBufReadExt::read_line` into a fresh buffer: reads up to and
including the first newline character; at end of input it returns whatever
remains (the empty list when the stream is exhausted). Returns the line read
and the rest of the input. -/
def readLine : Str → Str × Str
  | [] => ([], [])
  | c :: rest =>
    if c = '\n' then ([c], rest)
    else
      let p := readLine rest
      (c :: p.1, p.2)

/-- Helper for `splitWhitespace`, carrying the current word reversed. -/
def splitWSGo : Str → Str → List Str
  | [], acc => if acc = [] then [] else [acc.reverse]
  | c :: rest, acc =>
    if c.isWhitespace then
      if acc = [] then splitWSGo rest [] else acc.reverse :: splitWSGo rest []
    else splitWSGo rest (c :: acc)

/-- Models `str::split_whitespace`: the maximal nonempty runs of
non-whitespace characters. -/
def splitWhitespace (l : Str) : List Str := splitWSGo l []

/-- Splits a list at the first occurrence of `sep`, returning the parts
strictly before and strictly after it, or `none` when `sep` never occurs.
Used to model Rust's `str::split` iterator and to re-parse serialized
responses. -/
def splitFirst (sep : Str) : Str → Option (Str × Str)
  | [] => none
  | c :: rest =>
    if sep.isPrefixOf (c :: rest) then some ([], (c :: rest).drop sep.length)
    else (splitFirst sep rest).map fun p => (c :: p.1, p.2)

/-- Models `str::trim`: removes leading and trailing whitespace. -/
def trimChars (l : Str) : Str :=
  ((l.dropWhile Char.isWhitespace).reverse.dropWhile Char.isWhitespace).reverse

/-- The request methods of `req.rs`; only `GET` is supported. -/
inductive Method
  | Get
deriving DecidableEq

/-- Models `Method::try_from(&str)` of `req.rs`. -/
def Method.tryFrom (s : Str) : Except String Method :=
  if s = "GET".data then .ok .Get else .error "unsupported method"

/-- Models `Request` of `req.rs`: method, raw path, and the header map.
The header map is modelled as an association list with unique keys, newest
binding first (see `insertHeader`). -/
structure Request where
  method : Method
  path : Str
  headers : List (Str × Str)
deriving DecidableEq

/-- Models `HashMap::insert` on the header map: a single value per name; a
later insertion for an existing name replaces the earlier one. -/
def insertHeader (hs : List (Str × Str)) (k v : Str) : List (Str × Str) :=
  (k, v) :: hs.filter fun p => p.1 != k

/-- Models lines 54–61 of `req.rs`: `line.split(":")` followed by two calls
of `next()`. The name is the part before the first colon; the value is the
part between the first and the second colon (or everything after the first
colon when there is no second one), trimmed of surrounding whitespace. When
the line has no colon at all the second `next()` yields nothing and the
parse fails. -/
def parseHeaderLine (line : Str) : Except String (Str × Str) :=
  match splitFirst [':'] line with
  | none => .error "missing header value"
  | some (k, rest) =>
    let v := match splitFirst [':'] rest with
      | none => rest
      | some p => p.1
    .ok (k, trimChars v)

/-- Models the header loop of `parse_request` (lines 48–62 of `req.rs`).
The fuel argument only forces termination: the function is called with more
fuel than the input length and every recursing iteration consumes at least
one input character, so the fuel never reaches zero. -/
def parseHeadersR : Nat → Str → List (Str × Str) → Except String (List (Str × Str)) × Str
  | 0, input, acc => (.ok acc, input)
  | fuel + 1, input, acc =>
    let p := readLine input
    if p.1 = [] ∨ p.1 = ['\n'] ∨ p.1 = ['\r', '\n'] then (.ok acc, p.2)
    else
      match parseHeaderLine p.1 with
      | .error e => (.error e, p.2)
      | .ok kv => parseHeadersR fuel p.2 (insertHeader acc kv.1 kv.2)

/-- Models `parse_request` of `req.rs`. Returns the parse result together
with the unconsumed remainder of the input stream. -/
def parse_request (input : Str) : Except String Request × Str :=
  let p0 := readLine input
  match splitWhitespace p0.1 with
  | [] => (.error "missing method", p0.2)
  | m :: restToks =>
    match Method.tryFrom m with
    | .error e => (.error e, p0.2)
    | .ok method =>
      match restToks with
      | [] => (.error "missing path", p0.2)
      | pathTok :: _ =>
        match parseHeadersR (p0.2.length + 1) p0.2 [] with
        | (.ok hs, rest2) => (.ok ⟨method, pathTok, hs⟩, rest2)
        | (.error e, rest2) => (.error e, rest2)

/-- The response statuses of `resp.rs`. -/
inductive Status
  | NotFound
  | Ok
deriving DecidableEq

/-- Models the `Display` instance of `Status` in `resp.rs`. -/
def Status.display : Status → Str
  | .NotFound => "404 Not Found".data
  | .Ok => "200 OK".data

/-- Models the response body source of `resp.rs`: an in-memory cursor
(`from_html`) or an open file (`from_file`), the latter identified by the
resolved path it was opened at. -/
inductive Body
  | inMemory (bytes : Str)
  | fileBacked (file : List Str)
deriving DecidableEq

/-- Models `Response` of `resp.rs`. The header map is carried in its
serialization order. -/
structure Response where
  status : Status
  headers : List (Str × Str)
  data : Body
deriving DecidableEq

/-- Models `Response::status_and_headers` of `resp.rs`: the status line,
each header as `name: value` joined with CRLF, and the terminating blank
line. -/
def Response.status_and_headers (r : Response) : Str :=
  "HTTP/1.1 ".data ++ r.status.display ++ CRLF ++
    List.intercalate CRLF (r.headers.map fun kv => kv.1 ++ ": ".data ++ kv.2) ++
    CRLF ++ CRLF

/-- Models the filesystem as seen through the OS calls the server makes.
Paths are lists of segments from the filesystem root; all queries receive
fully resolved paths. -/
structure FS where
  isFile : List Str → Bool
  openOk : List Str → Bool
  size : List Str → Nat
  content : List Str → Str

/-- Models the write side of a connection: either an open sink accumulating
the bytes written so far, or a sink whose next write fails. -/
inductive OStream
  | ok (buf : Str)
  | failing
deriving DecidableEq

/-- Models `write_all` (and the stream side of `tokio::io::copy`). -/
def writeAll (s : OStream) (bytes : Str) : Except Unit OStream :=
  match s with
  | .ok buf => .ok (.ok (buf ++ bytes))
  | .failing => .error ()

/-- The bytes produced by fully draining a response body. -/
def bodyBytes (fs : FS) : Body → Str
  | .inMemory bs => bs
  | .fileBacked f => fs.content f

/-- Models `Response::write` of `resp.rs`: write the status line and
headers, then copy the body, propagating any write failure with `?`. -/
def Response.write (fs : FS) (r : Response) (s : OStream) : Except Unit OStream :=
  match writeAll s r.status_and_headers with
  | .error e => .error e
  | .ok s1 => writeAll s1 (bodyBytes fs r.data)

/-- The buffer a response serializes to when written onto a fresh sink. -/
def writtenBytes (fs : FS) (r : Response) : Str :=
  r.status_and_headers ++ bodyBytes fs r.data

/-- Models `Response::from_html` of `resp.rs`. -/
def Response.from_html (status : Status) (content : Str) : Response :=
  { status := status
    headers := [("Content-Type".data, "text/html".data),
                ("Content-Length".data, (Nat.repr content.length).data)]
    data := .inMemory content }

/-- Models `Path::file_name` on a segment path: the last segment, unless it
is the parent-directory component. -/
def fileNameOf (p : List Str) : Option Str :=
  match p.getLast? with
  | none => none
  | some s => if s = "..".data then none else some s

/-- Models `Path::extension` on a file name: the portion after the last dot,
provided a dot occurs at a position other than the start of the name. -/
def extensionOf (name : Str) : Option Str :=
  match splitFirst ['.'] name.reverse with
  | none => none
  | some p => if p.2 = [] then none else some p.1.reverse

/-- Models `mime_type` of `resp.rs`: a pure lookup on the path's extension,
defaulting to `application/octet-stream`. -/
def mime_type (path : List Str) : Str :=
  match (fileNameOf path).bind extensionOf with
  | some e =>
    if e = "html".data then "text/html".data
    else if e = "css".data then "text/css".data
    else if e = "js".data then "text/javascript".data
    else if e = "png".data then "image/png".data
    else if e = "jpg".data then "image/jpeg".data
    else if e = "gif".data then "image/gif".data
    else "application/octet-stream".data
  | none => "application/octet-stream".data

/-- Models `Response::from_file` of `resp.rs`: status `Ok`, `Content-Length`
from the open file's metadata, `Content-Type` from the (unresolved) path's
extension, and a body backed by the open file. -/
def Response.from_file (fs : FS) (path : List Str) (file : List Str) : Response :=
  { status := .Ok
    headers := [("Content-Length".data, (Nat.repr (fs.size file)).data),
                ("Content-Type".data, mime_type path)]
    data := .fileBacked file }

/-- Helper for `splitSegs`, carrying the current segment reversed. -/
def splitSegsGo : Str → Str → List Str
  | [], acc => if acc = [] then [] else [acc.reverse]
  | c :: rest, acc =>
    if c = '/' then
      if acc = [] then splitSegsGo rest [] else acc.reverse :: splitSegsGo rest []
    else splitSegsGo rest (c :: acc)

/-- Splits a path string into its nonempty segments. -/
def splitSegs (rel : Str) : List Str := splitSegsGo rel []

/-- Models `PathBuf::join` with a string argument: an absolute argument
replaces the whole path, a relative one is appended. -/
def joinPath (root : List Str) (rel : Str) : List Str :=
  if rel.head? = some '/' then splitSegs rel else root ++ splitSegs rel

/-- Models the operating system's resolution of `.` and `..` segments when a
path is actually consulted (`is_file`, `File::open`, metadata); `..` at the
filesystem root stays at the root. -/
def resolveSegs : List Str → List Str → List Str
  | acc, [] => acc
  | acc, s :: rest =>
    if s = "..".data then resolveSegs acc.dropLast rest
    else if s = ".".data then resolveSegs acc rest
    else resolveSegs (acc ++ [s]) rest

/-- Models `str::strip_prefix('/')` as applied in `handler.rs`. -/
def stripSlash : Str → Option Str
  | [] => none
  | c :: rest => if c = '/' then some rest else none

/-- Modelled from the spec: the content of the embedded static asset
`static/404.html`, which is not part of `src/`. The spec fixes only that it
is a fixed embedded HTML 404 document served verbatim, so its exact text is
an arbitrary constant here; no claim depends on it. -/
def notFoundHtml : Str := "<html><body><h1>404 Not Found</h1></body></html>".data

/-- Models `StaticFileHandler` of `handler.rs`. -/
structure StaticFileHandler where
  root : List Str

/-- The possible outcomes of `StaticFileHandler::handle`: a panic (the
`unwrap` on `strip_prefix`), a propagated error (`File::open` failing behind
`?`), or a response. -/
inductive HandleOutcome
  | panic
  | err
  | ok (r : Response)
deriving DecidableEq

/-- Models `StaticFileHandler::handle` of `handler.rs`: join the root with
the path stripped of its leading slash, answer the embedded 404 page when
the joined path is not a regular file, and otherwise open and serve it. -/
def StaticFileHandler.handle (h : StaticFileHandler) (fs : FS) (req : Request) : HandleOutcome :=
  match stripSlash req.path with
  | none => .panic
  | some rel =>
    let path := joinPath h.root rel
    let rpath := resolveSegs [] path
    if fs.isFile rpath then
      if fs.openOk rpath then .ok (Response.from_file fs path rpath)
      else .err
    else .ok (Response.from_html .NotFound notFoundHtml)

/-- The outcome of one `handle_req` call of `main.rs`: either the task
panics (the `unwrap` on `Response::write`), or the call returns
`Ok(close_connection)` together with the stream as the call left it. -/
inductive ReqOutcome
  | panic
  | ok (close : Bool) (s : OStream)
deriving DecidableEq

/-- Models `handle_req` of `main.rs`: remember whether the request carries
`Connection: close`, run the handler, and on success write the response
(unwrapping the result); a handler error is logged and `Ok(false)` is
returned without writing anything. -/
def handle_req (h : StaticFileHandler) (fs : FS) (req : Request) (s : OStream) : ReqOutcome :=
  let close := List.lookup "Connection".data req.headers == some "close".data
  match h.handle fs req with
  | .panic => .panic
  | .err => .ok false s
  | .ok resp =>
    match resp.write fs s with
    | .error _ => .panic
    | .ok s1 => .ok close s1

/-- What one iteration of the `handle_client` loop does to its connection:
close it, or keep it open awaiting the next request on the remaining input
with the stream as left by the response writer. -/
inductive ClientStep
  | closed
  | nextReq (rest : Str) (s : OStream)
deriving DecidableEq

/-- Models one iteration of the loop in `handle_client` of `main.rs`
(cancellation, which only ever closes the connection, is not modelled):
parse a request from the input; on a parse error the loop breaks and the
connection closes; otherwise `handle_req` runs and the loop breaks exactly
when it returns `Ok(true)`. The result is `none` when the task panics. -/
def handle_client_step (h : StaticFileHandler) (fs : FS) (input : Str) (s : OStream) :
    Option ClientStep :=
  match parse_request input with
  | (.error _, _) => some .closed
  | (.ok req, rest) =>
    match handle_req h fs req s with
    | .panic => none
    | .ok close s1 => if close then some .closed else some (.nextReq rest s1)

/-- Re-parses a serialized status line, inverting the status part of
`status_and_headers`. -/
def parseStatus (sl : Str) : Option Status :=
  if sl = "HTTP/1.1 200 OK".data then some .Ok
  else if sl = "HTTP/1.1 404 Not Found".data then some .NotFound
  else none

/-- Header loop of the response re-parser: reads `name: value` lines until
the blank line, then returns the headers together with the remaining bytes,
which form the body. Fuel only forces termination. -/
def parseRespHeaders : Nat → Str → List (Str × Str) → Option (List (Str × Str) × Str)
  | 0, _, _ => none
  | fuel + 1, buf, acc =>
    match splitFirst CRLF buf with
    | none => none
    | some (line, rest) =>
      if line = [] then some (acc, rest)
      else
        match splitFirst [':'] line with
        | none => none
        | some (k, v) => parseRespHeaders fuel rest (acc ++ [(k, trimChars v)])

/-- Re-parses a serialized response buffer into status, headers and body. -/
def parseResponse (buf : Str) : Option (Status × List (Str × Str) × Str) :=
  match splitFirst CRLF buf with
  | none => none
  | some (sl, rest) =>
    match parseStatus sl with
    | none => none
    | some st => (parseRespHeaders (rest.length + 1) rest []).map fun p => (st, p.1, p.2)

/-- The header map `parse_request` accumulates from a list of header lines
(without their CRLF terminators). -/
def headersOfLines (lines : List Str) : List (Str × Str) :=
  lines.foldl (fun acc l =>
    match parseHeaderLine (l ++ CRLF) with
    | .ok kv => insertHeader acc kv.1 kv.2
    | .error _ => acc) []

/-- Concrete filesystem fixture: a single regular file at `www/a`. -/
def fsW : FS :=
  { isFile := fun p => p == ["www".data, "a".data]
    openOk := fun _ => true
    size := fun _ => 5
    content := fun _ => "hello".data }

/-- Concrete handler fixture rooted at `www`. -/
def hW : StaticFileHandler := ⟨["www".data]⟩

/-- Concrete filesystem fixture on which every `File::open` fails. -/
def fsErr : FS :=
  { isFile := fun _ => true
    openOk := fun _ => false
    size := fun _ => 0
    content := fun _ => [] }

/-- Concrete filesystem fixture for the traversal input: the only regular
file lies at `srv/secret.txt`, outside the root `srv/www`. -/
def fsC1 : FS :=
  { isFile := fun p => p == ["srv".data, "secret.txt".data]
    openOk := fun _ => true
    size := fun _ => 42
    content := fun _ => "top secret".data }

/-- The response `hW` serves for `GET /a` on `fsW`. -/
def rW : Response :=
  Response.from_file fsW ["www".data, "a".data] ["www".data, "a".data]

/-- The stream state after successfully writing `rW` onto a fresh sink. -/
def s1W : OStream :=
  .ok ((([] : Str) ++ rW.status_and_headers) ++ bodyBytes fsW rW.data)

/-! Helper lemmas about the string primitives. -/

theorem readLine_append (a rest : Str) (h : '\n' ∉ a) :
    readLine (a ++ '\n' :: rest) = (a ++ ['\n'], rest) := by
  induction a with
  | nil => simp [readLine]
  | cons c t ih =>
    have hc : c ≠ '\n' := fun hc => h (hc ▸ List.mem_cons_self c t)
    have ht : '\n' ∉ t := fun hm => h (List.mem_cons_of_mem c hm)
    simp [readLine, hc, ih ht]

theorem splitFirst_colon_isSome (l : Str) (h : ':' ∈ l) :
    ∃ k r, splitFirst [':'] l = some (k, r) := by
  induction l with
  | nil => cases h
  | cons c t ih =>
    by_cases hc : c = ':'
    · subst hc
      exact ⟨[], t, by simp [splitFirst, List.isPrefixOf]⟩
    · have ht : ':' ∈ t := by
        rcases List.mem_cons.mp h with h1 | h1
        · exact absurd h1.symm hc
        · exact h1
      obtain ⟨k, r, hkr⟩ := ih ht
      exact ⟨c :: k, r, by simp [splitFirst, List.isPrefixOf, Ne.symm hc, hkr]⟩

theorem splitFirst_colon_append (a b : Str) (ha : ':' ∉ a) :
    splitFirst [':'] (a ++ ':' :: b) = some (a, b) := by
  induction a with
  | nil => simp [splitFirst, List.isPrefixOf]
  | cons c t ih =>
    have hc : c ≠ ':' := fun h => ha (h ▸ List.mem_cons_self c t)
    have ht : ':' ∉ t := fun h => ha (List.mem_cons_of_mem c h)
    simp [splitFirst, List.isPrefixOf, Ne.symm hc, ih ht]

theorem splitFirst_colon_none (l : Str) (h : ':' ∉ l) :
    splitFirst [':'] l = none := by
  induction l with
  | nil => rfl
  | cons c t ih =>
    have hc : c ≠ ':' := fun hh => h (hh ▸ List.mem_cons_self c t)
    have ht : ':' ∉ t := fun hh => h (List.mem_cons_of_mem c hh)
    simp [splitFirst, List.isPrefixOf, Ne.symm hc, ih ht]

theorem splitFirst_crlf_append (a b : Str) (ha : '\r' ∉ a) :
    splitFirst CRLF (a ++ CRLF ++ b) = some (a, b) := by
  induction a with
  | nil => simp [splitFirst, CRLF, List.isPrefixOf]
  | cons c t ih =>
    have hc : c ≠ '\r' := fun h => ha (h ▸ List.mem_cons_self c t)
    have ht : '\r' ∉ t := fun h => ha (List.mem_cons_of_mem c h)
    have ih' := ih ht
    simp only [CRLF, List.append_assoc, List.cons_append, List.nil_append] at ih' ⊢
    simp [splitFirst, List.isPrefixOf, Ne.symm hc, ih']

theorem digitChar_isDigit (m : Nat) (h : m < 10) : (Nat.digitChar m).isDigit = true := by
  interval_cases m <;> decide

theorem toDigitsCore_digits (f : Nat) :
    ∀ (n : Nat) (acc : List Char), (∀ c ∈ acc, c.isDigit = true) →
      ∀ c ∈ Nat.toDigitsCore 10 f n acc, c.isDigit = true := by
  induction f with
  | zero =>
    intro n acc hacc c hc
    simp only [Nat.toDigitsCore] at hc
    exact hacc c hc
  | succ f ih =>
    intro n acc hacc c hc
    simp only [Nat.toDigitsCore] at hc
    have hd : (Nat.digitChar (n % 10)).isDigit = true :=
      digitChar_isDigit _ (Nat.mod_lt _ (by decide))
    by_cases h0 : n / 10 = 0
    · rw [if_pos h0] at hc
      rcases List.mem_cons.mp hc with h1 | h1
      · exact h1 ▸ hd
      · exact hacc c h1
    · rw [if_neg h0] at hc
      refine ih (n / 10) _ ?_ c hc
      intro x hx
      rcases List.mem_cons.mp hx with h1 | h1
      · exact h1 ▸ hd
      · exact hacc x h1

theorem repr_digits (n : Nat) : ∀ c ∈ (Nat.repr n).data, c.isDigit = true := by
  intro c hc
  exact toDigitsCore_digits (n + 1) n [] (by intro x hx; cases hx) c hc

theorem repr_no_cr (n : Nat) : '\r' ∉ (Nat.repr n).data := by
  intro h
  exact absurd (repr_digits n '\r' h) (by decide)

theorem isDigit_not_ws (c : Char) (h : c.isDigit = true) : c.isWhitespace = false := by
  cases hw : c.isWhitespace
  · rfl
  · exfalso
    simp only [Char.isWhitespace, Bool.or_eq_true, decide_eq_true_eq] at hw
    rcases hw with ((h1 | h1) | h1) | h1 <;> subst h1 <;> exact absurd h (by decide)

theorem dropWhile_ws_eq_self (l : Str) (h : ∀ c ∈ l, c.isWhitespace = false) :
    l.dropWhile Char.isWhitespace = l := by
  cases l with
  | nil => rfl
  | cons c t => simp [List.dropWhile, h c (List.mem_cons_self c t)]

theorem trim_space_digits (d : Str) (hd : ∀ c ∈ d, c.isDigit = true) :
    trimChars (' ' :: d) = d := by
  have hws : ∀ c ∈ d, c.isWhitespace = false := fun c hc => isDigit_not_ws c (hd c hc)
  have h1 : (' ' :: d).dropWhile Char.isWhitespace = d.dropWhile Char.isWhitespace := by
    simp [List.dropWhile]
  unfold trimChars
  rw [h1, dropWhile_ws_eq_self d hws,
    dropWhile_ws_eq_self d.reverse (fun c hc => hws c (List.mem_reverse.mp hc)),
    List.reverse_reverse]

theorem intercalate_pair (s a b : Str) : List.intercalate s [a, b] = a ++ s ++ b := by
  simp [List.intercalate, List.intersperse, List.append_assoc]

theorem parseRespHeaders_step (f : Nat) (line rest : Str) (acc : List (Str × Str))
    (hcr : '\r' ∉ line) (hne : line ≠ []) (k v : Str)
    (hsf : splitFirst [':'] line = some (k, v)) :
    parseRespHeaders (f + 1) (line ++ CRLF ++ rest) acc
      = parseRespHeaders f rest (acc ++ [(k, trimChars v)]) := by
  rw [parseRespHeaders, splitFirst_crlf_append line rest hcr]
  simp [hne, hsf]

theorem parseRespHeaders_done (f : Nat) (rest : Str) (acc : List (Str × Str)) :
    parseRespHeaders (f + 1) (CRLF ++ rest) acc = some (acc, rest) := by
  have h : splitFirst CRLF (([] : Str) ++ CRLF ++ rest) = some ([], rest) :=
    splitFirst_crlf_append [] rest (by simp)
  simp only [List.nil_append] at h
  rw [parseRespHeaders, h]
  simp

theorem parseHeadersR_lines (lines : List Str) :
    ∀ (f : Nat) (acc : List (Str × Str)),
      (∀ l ∈ lines, l ≠ [] ∧ '\n' ∉ l ∧ ':' ∈ l) →
      (lines.map (· ++ CRLF)).flatten.length < f →
      parseHeadersR f (lines.map (· ++ CRLF)).flatten acc
        = (.ok (lines.foldl (fun acc l =>
            match parseHeaderLine (l ++ CRLF) with
            | .ok kv => insertHeader acc kv.1 kv.2
            | .error _ => acc) acc), []) := by
  induction lines with
  | nil =>
    intro f acc _ hf
    match f, hf with
    | f + 1, _ => simp [parseHeadersR, readLine]
  | cons l ls ih =>
    intro f acc hl hf
    obtain ⟨hne, hnl, hcolon⟩ := hl l (List.mem_cons_self l ls)
    have hin : ((l :: ls).map (· ++ CRLF)).flatten
        = (l ++ ['\r']) ++ '\n' :: (ls.map (· ++ CRLF)).flatten := by
      simp [CRLF, List.append_assoc]
    match f, hf with
    | f + 1, hf =>
      have hnl' : '\n' ∉ l ++ ['\r'] := by
        intro hm
        rcases List.mem_append.mp hm with hm | hm
        · exact hnl hm
        · simp at hm
      have hr := readLine_append (l ++ ['\r']) ((ls.map (· ++ CRLF)).flatten) hnl'
      have hline : (l ++ ['\r']) ++ ['\n'] = l ++ CRLF := by
        simp [CRLF, List.append_assoc]
      rw [hline] at hr
      have hnotblank : ¬(l ++ CRLF = [] ∨ l ++ CRLF = ['\n'] ∨ l ++ CRLF = ['\r', '\n']) := by
        intro hor
        rcases hor with h1 | h1 | h1
        · exact absurd (List.append_eq_nil.mp h1).1 hne
        · have hlen := congrArg List.length h1
          simp [CRLF] at hlen
        · have hlen := congrArg List.length h1
          simp [CRLF] at hlen
          exact hne hlen
      obtain ⟨k, r, hsf⟩ :=
        splitFirst_colon_isSome (l ++ CRLF) (List.mem_append_left _ hcolon)
      have hph : parseHeaderLine (l ++ CRLF)
          = .ok (k, trimChars (match splitFirst [':'] r with
              | none => r
              | some p => p.1)) := by
        rw [parseHeaderLine, hsf]
      have hf' : ((ls.map (· ++ CRLF)).flatten).length < f := by
        have key : (((l :: ls).map (· ++ CRLF)).flatten).length
            = l.length + 1 + (((ls.map (· ++ CRLF)).flatten).length + 1) := by
          rw [hin]
          simp only [List.length_append, List.length_cons, List.length_nil]
        rw [key] at hf
        omega
      rw [parseHeadersR, hin, hr]
      rw [if_neg hnotblank, hph]
      simp only [List.foldl_cons, hph]
      exact ih f _ (fun x hx => hl x (List.mem_cons_of_mem l hx)) hf'

/-! Claim theorems. -/

/-- Claim C1 (code gap): the spec requires that a request whose `..`
segments make the joined path escape the configured root is answered with
the fixed NotFound response and never with a file outside the root. The
code performs a naive join with no such check: on a filesystem whose only
regular file is `srv/secret.txt`, the handler rooted at `srv/www` answers
`GET /../secret.txt` with a 200 response backed by exactly that file, whose
resolved path does not lie under the root. -/
theorem c1_path_traversal_is_served :
    StaticFileHandler.handle ⟨["srv".data, "www".data]⟩ fsC1
        ⟨.Get, "/../secret.txt".data, []⟩
      = .ok { status := .Ok
              headers := [("Content-Length".data, "42".data),
                          ("Content-Type".data, "application/octet-stream".data)]
              data := .fileBacked ["srv".data, "secret.txt".data] } ∧
    ¬ ["srv".data, "www".data] <+: ["srv".data, "secret.txt".data] := by
  refine ⟨by decide, ?_⟩
  rintro ⟨t, ht⟩
  have h2 := congrArg (fun l => l.get? 1) ht
  simp [List.get?] at h2

/-- Claim C2 counterexample: the input `GET /foo HTTP/1.1\r\n` is exhausted
right after the request line, before any terminating blank line, yet
`parse_request` succeeds and returns a (partial) request with an empty
header map rather than failing — the behavior the repository's own
`no_headers` test asserts. -/
theorem c2_exhausted_stream_parses_ok :
    parse_request "GET /foo HTTP/1.1\r\n".data
      = (.ok ⟨.Get, "/foo".data, []⟩, []) := rfl

/-- Claim C2 (amended): stream exhaustion before the terminating blank line
is not an error: `parse_request` treats end of input as the end of headers
and returns the partial request with the headers parsed so far. For any
sequence of well-formed CRLF-terminated header lines after the request
line, with no terminating blank line, parsing succeeds with exactly the
headers accumulated up to the point of exhaustion. -/
theorem c2_eof_returns_partial_request (hdrLines : List Str)
    (hl : ∀ l ∈ hdrLines, l ≠ [] ∧ '\n' ∉ l ∧ ':' ∈ l) :
    parse_request ("GET /foo HTTP/1.1\r\n".data ++ (hdrLines.map (· ++ CRLF)).flatten)
      = (.ok ⟨.Get, "/foo".data, headersOfLines hdrLines⟩, []) := by
  have hin : "GET /foo HTTP/1.1\r\n".data ++ (hdrLines.map (· ++ CRLF)).flatten
      = "GET /foo HTTP/1.1\r".data ++ '\n' :: (hdrLines.map (· ++ CRLF)).flatten := rfl
  have hr := readLine_append "GET /foo HTTP/1.1\r".data
    ((hdrLines.map (· ++ CRLF)).flatten) (by decide)
  have hsw : splitWhitespace ("GET /foo HTTP/1.1\r".data ++ ['\n'])
      = ["GET".data, "/foo".data, "HTTP/1.1".data] := rfl
  have hm : Method.tryFrom "GET".data = .ok .Get := rfl
  simp only [parse_request, hin, hr, hsw, hm]
  rw [parseHeadersR_lines hdrLines _ [] hl (Nat.lt_succ_self _)]
  rfl

/-- Witness for C2: the amended claim instantiated at the single header
line `Host: x` with the stream exhausted immediately after it. -/
theorem c2_witness :
    parse_request "GET /foo HTTP/1.1\r\nHost: x\r\n".data
      = (.ok ⟨.Get, "/foo".data, [("Host".data, "x".data)]⟩, []) := by
  have h := c2_eof_returns_partial_request ["Host: x".data] (by decide)
  have heq : "GET /foo HTTP/1.1\r\nHost: x\r\n".data
      = "GET /foo HTTP/1.1\r\n".data ++ ((["Host: x".data].map (· ++ CRLF)).flatten) := by
    decide
  rw [heq, h]
  rfl

/-- Claim C3 counterexample: on a filesystem where opening the requested
file fails, one loop iteration keeps the connection open (awaiting the next
request, stream untouched) instead of closing it as the claim requires. -/
theorem c3_file_open_error_continues_loop :
    handle_client_step hW fsErr "GET /a HTTP/1.1\r\n\r\n".data (.ok [])
      = some (.nextReq [] (.ok [])) := rfl

/-- Claim C3 (amended): when the handler fails (e.g. a `File::open` error),
`handle_req` logs the error and returns `Ok(false)`, so `handle_client`
does not stop looping: the connection stays open awaiting the next request,
no response bytes are written (the stream is unchanged), and no panic or
error escapes, so the server process is not terminated. -/
theorem c3_handler_error_keeps_connection_open (h : StaticFileHandler) (fs : FS)
    (input : Str) (req : Request) (rest : Str) (s : OStream)
    (hp : parse_request input = (.ok req, rest))
    (hh : h.handle fs req = .err) :
    handle_client_step h fs input s = some (.nextReq rest s) := by
  simp [handle_client_step, hp, handle_req, hh]

/-- Witness for C3: a concrete connection on the open-fails filesystem. -/
theorem c3_witness :
    handle_client_step hW fsErr "GET /b HTTP/1.1\r\n\r\n".data (.ok [])
      = some (.nextReq [] (.ok [])) :=
  c3_handler_error_keeps_connection_open hW fsErr _ ⟨.Get, "/b".data, []⟩ [] (.ok []) rfl rfl

/-- Claim C4 counterexample: for the header line `Host: localhost:8080` the
parsed value is `localhost`, not the whole remainder `localhost:8080` after
the first colon — `split(":")` truncates the value at the second colon. -/
theorem c4_colon_value_truncated :
    parse_request "GET / HTTP/1.1\r\nHost: localhost:8080\r\n\r\n".data
      = (.ok ⟨.Get, "/".data, [("Host".data, "localhost".data)]⟩, []) ∧
    "localhost".data ≠ "localhost:8080".data := ⟨rfl, by decide⟩

/-- Claim C4 (amended): a header line containing at least one colon splits
at the first colon into the name (everything before it) and the value,
where the value is the segment between the first and the second colon — the
whole remainder only when no second colon exists — trimmed of surrounding
whitespace; a line containing no colon is a parse error. -/
theorem c4_header_value_between_first_two_colons (a b rest line : Str)
    (ha : ':' ∉ a) (hb : ':' ∉ b) (hrest : rest = [] ∨ rest.head? = some ':') :
    parseHeaderLine (a ++ ':' :: (b ++ rest)) = .ok (a, trimChars b) ∧
    (':' ∉ line → parseHeaderLine line = .error "missing header value") := by
  constructor
  · rcases hrest with hrest | hrest
    · subst hrest
      simp [parseHeaderLine, splitFirst_colon_append a b ha, splitFirst_colon_none b hb]
    · cases rest with
      | nil => simp at hrest
      | cons c r' =>
        have hc : c = ':' := by simpa using hrest
        subst hc
        simp [parseHeaderLine, splitFirst_colon_append a (b ++ ':' :: r') ha,
          splitFirst_colon_append b r' hb]
  · intro hnl
    simp [parseHeaderLine, splitFirst_colon_none line hnl]

/-- Witness for C4: both halves of the amended claim at concrete lines. -/
theorem c4_witness :
    parseHeaderLine "Host: localhost:8080".data
      = .ok ("Host".data, "localhost".data) ∧
    parseHeaderLine "no colon here".data = .error "missing header value" := by
  have h := c4_header_value_between_first_two_colons "Host".data " localhost".data
    ":8080".data "no colon here".data (by decide) (by decide) (Or.inr rfl)
  refine ⟨?_, h.2 (by decide)⟩
  have heq : "Host: localhost:8080".data
      = "Host".data ++ ':' :: (" localhost".data ++ ":8080".data) := by decide
  rw [heq, h.1]
  rfl

/-- Claim C5 counterexample: with a stream whose next write fails,
`handle_req` does not gracefully close the connection — the `unwrap` on
`Response::write` panics the connection task. -/
theorem c5_write_failure_panics_task :
    handle_req hW fsW ⟨.Get, "/a".data, []⟩ .failing = .panic := rfl

/-- Claim C5 (amended): `Response::write` does propagate every underlying
write failure as an error to its caller, but `handle_req` unwraps that
result, so a write failure panics the connection task — terminating only
that connection — instead of being propagated and handled by transitioning
the connection to Closed. -/
theorem c5_write_error_propagates_then_unwrap_panics (h : StaticFileHandler)
    (fs : FS) (req : Request) (r : Response)
    (hh : h.handle fs req = .ok r) :
    Response.write fs r .failing = .error () ∧
    handle_req h fs req .failing = .panic := by
  have hw : Response.write fs r .failing = .error () := rfl
  exact ⟨hw, by simp [handle_req, hh, hw]⟩

/-- Witness for C5: the amended claim at a concrete served file. -/
theorem c5_witness :
    Response.write fsW rW .failing = .error () ∧
    handle_req hW fsW ⟨.Get, "/a".data, [("X".data, "y".data)]⟩ .failing = .panic :=
  c5_write_error_propagates_then_unwrap_panics hW fsW
    ⟨.Get, "/a".data, [("X".data, "y".data)]⟩ rW rfl

/-- Claim C6: for every successfully handled request (the handler returned
a response and the write succeeded), the connection handler keeps the
connection open awaiting the next request unless the request's headers map
`Connection` to exactly `close`, in which case the loop breaks and the
connection closes; the decision is computed the same way for every
request. -/
theorem c6_connection_close_policy (h : StaticFileHandler) (fs : FS)
    (input : Str) (req : Request) (rest : Str) (s : OStream) (r : Response) (s1 : OStream)
    (hp : parse_request input = (.ok req, rest))
    (hh : h.handle fs req = .ok r)
    (hw : r.write fs s = .ok s1) :
    handle_client_step h fs input s
      = some (if List.lookup "Connection".data req.headers == some "close".data
              then .closed else .nextReq rest s1) := by
  simp only [handle_client_step, hp, handle_req, hh, hw]
  cases List.lookup "Connection".data req.headers == some "close".data <;> simp

/-- Witness for C6: one request carrying `Connection: close` closes the
connection; the same request without it keeps the connection open. -/
theorem c6_witness :
    handle_client_step hW fsW "GET /a HTTP/1.1\r\nConnection: close\r\n\r\n".data (.ok [])
      = some .closed ∧
    handle_client_step hW fsW "GET /a HTTP/1.1\r\n\r\n".data (.ok [])
      = some (.nextReq [] s1W) := by
  constructor
  · rw [c6_connection_close_policy hW fsW "GET /a HTTP/1.1\r\nConnection: close\r\n\r\n".data
      ⟨.Get, "/a".data, [("Connection".data, "close".data)]⟩ [] (.ok []) rW s1W rfl rfl rfl]
    rfl
  · rw [c6_connection_close_policy hW fsW "GET /a HTTP/1.1\r\n\r\n".data
      ⟨.Get, "/a".data, []⟩ [] (.ok []) rW s1W rfl rfl rfl]
    rfl

/-- Claim C8: `from_file` produces a response with status Ok whose
`Content-Length` equals the file size read from metadata and whose
`Content-Type` is the MIME lookup on the path's extension; the lookup maps
the lowercase extensions html, css, js, png, jpg, gif to their content
types and every other (or missing) extension to
`application/octet-stream`. -/
theorem c8_from_file_headers_and_mime :
    (∀ (fs : FS) (path file : List Str),
      Response.from_file fs path file
        = { status := .Ok
            headers := [("Content-Length".data, (Nat.repr (fs.size file)).data),
                        ("Content-Type".data, mime_type path)]
            data := .fileBacked file }) ∧
    (∀ (p : List Str) (e : Str), (fileNameOf p).bind extensionOf = some e →
      (e = "html".data → mime_type p = "text/html".data) ∧
      (e = "css".data → mime_type p = "text/css".data) ∧
      (e = "js".data → mime_type p = "text/javascript".data) ∧
      (e = "png".data → mime_type p = "image/png".data) ∧
      (e = "jpg".data → mime_type p = "image/jpeg".data) ∧
      (e = "gif".data → mime_type p = "image/gif".data) ∧
      (e ∉ ["html".data, "css".data, "js".data, "png".data, "jpg".data, "gif".data] →
        mime_type p = "application/octet-stream".data)) ∧
    (∀ p : List Str, (fileNameOf p).bind extensionOf = none →
      mime_type p = "application/octet-stream".data) := by
  refine ⟨fun fs path file => rfl, ?_, ?_⟩
  · intro p e he
    simp only [mime_type, he]
    refine ⟨?_, ?_, ?_, ?_, ?_, ?_, ?_⟩
    · intro hx; subst hx; decide
    · intro hx; subst hx; decide
    · intro hx; subst hx; decide
    · intro hx; subst hx; decide
    · intro hx; subst hx; decide
    · intro hx; subst hx; decide
    · intro hx
      simp only [List.mem_cons, List.not_mem_nil, or_false, not_or] at hx
      obtain ⟨h1, h2, h3, h4, h5, h6⟩ := hx
      rw [if_neg h1, if_neg h2, if_neg h3, if_neg h4, if_neg h5, if_neg h6]
  · intro p he
    simp only [mime_type, he]

/-- Witness for C8: the theorem instantiated at concrete paths covering a
mapped extension, an unknown extension and a missing extension. -/
theorem c8_witness :
    Response.from_file fsW ["index.html".data] ["www".data, "a".data]
      = { status := .Ok
          headers := [("Content-Length".data, "5".data),
                      ("Content-Type".data, "text/html".data)]
          data := .fileBacked ["www".data, "a".data] } ∧
    mime_type ["style.css".data] = "text/css".data ∧
    mime_type ["archive.tar".data] = "application/octet-stream".data ∧
    mime_type ["README".data] = "application/octet-stream".data := by
  refine ⟨?_, ?_, ?_, ?_⟩
  · rw [c8_from_file_headers_and_mime.1 fsW ["index.html".data] ["www".data, "a".data]]
    rfl
  · exact (c8_from_file_headers_and_mime.2.1 ["style.css".data] "css".data rfl).2.1 rfl
  · exact (c8_from_file_headers_and_mime.2.1 ["archive.tar".data] "tar".data rfl).2.2.2.2.2.2
      (by decide)
  · exact c8_from_file_headers_and_mime.2.2 ["README".data] rfl

/-- Claim C9: serializing the status line and headers is a pure function of
the response's status and header map: two responses agreeing on those
fields serialize to byte-identical output, including header order. -/
theorem c9_status_and_headers_deterministic (r1 r2 : Response)
    (hst : r1.status = r2.status) (hh : r1.headers = r2.headers) :
    r1.status_and_headers = r2.status_and_headers := by
  simp [Response.status_and_headers, hst, hh]

/-- Witness for C9: two responses that differ only in their body source
serialize their status line and headers identically. -/
theorem c9_witness :
    Response.status_and_headers ⟨.Ok, [("A".data, "b".data)], .inMemory "x".data⟩
      = Response.status_and_headers ⟨.Ok, [("A".data, "b".data)], .fileBacked []⟩ :=
  c9_status_and_headers_deterministic _ _ rfl rfl

/-- Claim C10: for every request whose path does not begin with `/`, the
`unwrap` on `strip_prefix('/')` in `StaticFileHandler::handle` panics
instead of producing a response or error; such requests are reachable from
the public interface, since the parser accepts `GET foo HTTP/1.1` and
produces the path `foo`. -/
theorem c10_nonslash_path_panics (fs : FS) (h : StaticFileHandler) (req : Request)
    (hp : req.path.head? ≠ some '/') :
    h.handle fs req = .panic ∧
    parse_request "GET foo HTTP/1.1\r\n\r\n".data = (.ok ⟨.Get, "foo".data, []⟩, []) := by
  refine ⟨?_, rfl⟩
  have hnone : stripSlash req.path = none := by
    cases hpath : req.path with
    | nil => rfl
    | cons c t =>
      have hc : c ≠ '/' := by
        intro hc
        rw [hpath, hc] at hp
        simp at hp
      simp [stripSlash, hc]
  rw [StaticFileHandler.handle, hnone]

theorem parseResponse_two_headers (sl : Str) (st : Status) (d content : Str)
    (hsl : parseStatus sl = some st) (hcr : '\r' ∉ sl)
    (hd : ∀ c ∈ d, c.isDigit = true) :
    parseResponse (sl ++ CRLF ++
        ("Content-Type: text/html".data ++ CRLF ++
          ("Content-Length: ".data ++ d ++ CRLF ++ (CRLF ++ content))))
      = some (st, [("Content-Type".data, "text/html".data),
                   ("Content-Length".data, d)], content) := by
  set R1 : Str := "Content-Type: text/html".data ++ CRLF ++
      ("Content-Length: ".data ++ d ++ CRLF ++ (CRLF ++ content)) with hR1
  simp only [parseResponse, splitFirst_crlf_append sl R1 hcr, hsl]
  have h2 : 2 ≤ R1.length := by
    rw [hR1, List.length_append]
    have h23 : 2 ≤ ("Content-Type: text/html".data ++ CRLF).length := by decide
    omega
  obtain ⟨K, hK⟩ : ∃ K, R1.length + 1 = K + 3 := ⟨R1.length - 2, by omega⟩
  rw [hK, hR1]
  rw [show K + 3 = K + 2 + 1 from rfl]
  rw [parseRespHeaders_step (K + 2) "Content-Type: text/html".data
    ("Content-Length: ".data ++ d ++ CRLF ++ (CRLF ++ content)) []
    (by decide) (by decide) "Content-Type".data " text/html".data rfl]
  have hcrB : '\r' ∉ "Content-Length: ".data ++ d := by
    intro hm
    rcases List.mem_append.mp hm with hm | hm
    · exact absurd hm (by decide)
    · exact absurd (hd _ hm) (by decide)
  have hneB : "Content-Length: ".data ++ d ≠ [] := by
    intro h0
    exact absurd (List.append_eq_nil.mp h0).1 (by decide)
  have hsfB : splitFirst [':'] ("Content-Length: ".data ++ d)
      = some ("Content-Length".data, ' ' :: d) :=
    splitFirst_colon_append "Content-Length".data (' ' :: d) (by decide)
  rw [show K + 2 = K + 1 + 1 from rfl]
  rw [parseRespHeaders_step (K + 1) ("Content-Length: ".data ++ d) (CRLF ++ content)
    _ hcrB hneB "Content-Length".data (' ' :: d) hsfB]
  rw [parseRespHeaders_done K content _]
  simp [trim_space_digits d hd]
  rfl

/-- Claim C7: a response built by `from_html` and serialized onto a fresh
buffer re-parses to exactly the original status, a `Content-Type` header of
`text/html`, a `Content-Length` header equal to the byte length of the
content, and body bytes equal to the content — for every status and every
content. -/
theorem c7_from_html_roundtrip (fs : FS) (st : Status) (content : Str) :
    Response.write fs (Response.from_html st content) (.ok [])
      = .ok (.ok (writtenBytes fs (Response.from_html st content))) ∧
    parseResponse (writtenBytes fs (Response.from_html st content))
      = some (st, [("Content-Type".data, "text/html".data),
                   ("Content-Length".data, (Nat.repr content.length).data)],
              content) := by
  constructor
  · simp [Response.write, writeAll, writtenBytes, List.append_assoc]
  · have e1 : ∀ X : Str,
        "Content-Type".data ++ (": ".data ++ ("text/html".data ++ X))
          = "Content-Type: text/html".data ++ X := fun X => rfl
    have e2 : ∀ X : Str,
        "Content-Length".data ++ (": ".data ++ X) = "Content-Length: ".data ++ X :=
      fun X => rfl
    have hbuf : writtenBytes fs (Response.from_html st content)
        = ("HTTP/1.1 ".data ++ st.display) ++ CRLF ++
          ("Content-Type: text/html".data ++ CRLF ++
            ("Content-Length: ".data ++ (Nat.repr content.length).data ++ CRLF ++
              (CRLF ++ content))) := by
      rw [writtenBytes, Response.status_and_headers]
      simp only [Response.from_html, bodyBytes, List.map_cons, List.map_nil]
      rw [intercalate_pair]
      simp [List.append_assoc, e1, e2]
    rw [hbuf]
    exact parseResponse_two_headers ("HTTP/1.1 ".data ++ st.display) st
      (Nat.repr content.length).data content
      (by cases st <;> rfl) (by cases st <;> decide) (repr_digits content.length)

/-- Witness for C10: the panic at the concrete path `foo`. -/
theorem c10_witness :
    StaticFileHandler.handle hW fsW ⟨.Get, "foo".data, []⟩ = .panic :=
  (c10_nonslash_path_panics fsW hW ⟨.Get, "foo".data, []⟩ (by decide)).1

end HttpSrv
